import Mathlib

/-!
Formal model of the HireLens matching and scoring engine.

Shallow embedding of the Python sources
backend/utils/scoring.py, backend/matchers/hard_matcher.py,
backend/matchers/soft_matcher.py and
backend/langchain_pipelines/evaluation_pipeline.py.

Modelling conventions:
Python floats are modelled as exact rationals, Python strings as Lean
strings (character lists, ASCII case mapping), Python lists as Lean lists.
Python round(x, 2) is modelled as exact round-half-to-even to a multiple
of 1/100.  Functions named after the Python methods keep their structure.
-/

namespace HireLens

/-- Python round to the nearest integer, ties to the even integer. -/
def roundHalfEven (q : ℚ) : ℤ :=
  if q - ⌊q⌋ < 1/2 then ⌊q⌋
  else if 1/2 < q - ⌊q⌋ then ⌊q⌋ + 1
  else if Even ⌊q⌋ then ⌊q⌋ else ⌊q⌋ + 1

/-- Python round(q, 2): round half to even at two decimal places. -/
def round2 (q : ℚ) : ℚ := (roundHalfEven (q * 100) : ℚ) / 100

/-- ScoringEngine verdict threshold for High (scoring.py, verdict_thresholds). -/
def verdict_threshold_high : ℚ := 75

/-- ScoringEngine verdict threshold for Medium (scoring.py, verdict_thresholds). -/
def verdict_threshold_medium : ℚ := 50

/-- Return value of ScoringEngine.calculate_final_score (scoring.py lines 19-55). -/
structure FinalScoreResult where
  final_score : ℚ
  hard_match_score : ℚ
  soft_match_score : ℚ
  hard_weight : ℚ
  soft_weight : ℚ
deriving Repr, DecidableEq

/-- ScoringEngine.calculate_final_score (scoring.py lines 19-55): renormalize
the weights when their sum is positive, otherwise reset both to 0.5, then
return the weighted sum rounded to two decimals, the rounded inputs and the
weights actually used. -/
def calculate_final_score (hard soft hard_weight soft_weight : ℚ) : FinalScoreResult :=
  if 0 < hard_weight + soft_weight then
    { final_score := round2 (hard * (hard_weight / (hard_weight + soft_weight)) +
        soft * (soft_weight / (hard_weight + soft_weight)))
      hard_match_score := round2 hard
      soft_match_score := round2 soft
      hard_weight := hard_weight / (hard_weight + soft_weight)
      soft_weight := soft_weight / (hard_weight + soft_weight) }
  else
    { final_score := round2 (hard * (1/2) + soft * (1/2))
      hard_match_score := round2 hard
      soft_match_score := round2 soft
      hard_weight := 1/2
      soft_weight := 1/2 }

/-- ScoringEngine.determine_verdict (scoring.py lines 57-72). -/
def determine_verdict (final_score : ℚ) : String :=
  if verdict_threshold_high ≤ final_score then "High"
  else if verdict_threshold_medium ≤ final_score then "Medium"
  else "Low"

/-- Rounding half to even is monotone. -/
theorem roundHalfEven_mono {x y : ℚ} (h : x ≤ y) : roundHalfEven x ≤ roundHalfEven y := by
  unfold roundHalfEven
  have hf : ⌊x⌋ ≤ ⌊y⌋ := Int.floor_le_floor h
  rcases lt_or_eq_of_le hf with hlt | heq
  · split_ifs <;> omega
  · rw [← heq]
    have hr : x - (⌊x⌋ : ℚ) ≤ y - (⌊x⌋ : ℚ) := by linarith
    split_ifs <;> first | omega | linarith

/-- Rounding to two decimals is monotone. -/
theorem round2_mono {x y : ℚ} (h : x ≤ y) : round2 x ≤ round2 y := by
  unfold round2
  have h1 : roundHalfEven (x * 100) ≤ roundHalfEven (y * 100) :=
    roundHalfEven_mono (by linarith)
  have h2 : ((roundHalfEven (x * 100) : ℤ) : ℚ) ≤ ((roundHalfEven (y * 100) : ℤ) : ℚ) := by
    exact_mod_cast h1
  linarith

/-- Claim C5: determine_verdict returns High for scores at or above 75,
Medium for scores in [50, 75), and Low below 50; boundaries are inclusive on
the lower end. -/
theorem C5_verdict_boundaries (f : ℚ) :
    (75 ≤ f → determine_verdict f = "High") ∧
    (50 ≤ f ∧ f < 75 → determine_verdict f = "Medium") ∧
    (f < 50 → determine_verdict f = "Low") := by
  rw [determine_verdict, verdict_threshold_high, verdict_threshold_medium]
  refine ⟨fun h => ?_, fun h => ?_, fun h => ?_⟩
  · rw [if_pos h]
  · rw [if_neg (not_le.mpr h.2), if_pos h.1]
  · rw [if_neg (not_le.mpr (by linarith : f < 75)), if_neg (not_le.mpr h)]

/-- Witness for C5 at the four boundary inputs from the specification. -/
theorem C5_verdict_boundaries_witness :
    determine_verdict 75 = "High" ∧ determine_verdict 74.999 = "Medium" ∧
    determine_verdict 50 = "Medium" ∧ determine_verdict 49.999 = "Low" :=
  ⟨(C5_verdict_boundaries 75).1 (by norm_num),
   (C5_verdict_boundaries 74.999).2.1 (by norm_num),
   (C5_verdict_boundaries 50).2.1 (by norm_num),
   (C5_verdict_boundaries 49.999).2.2 (by norm_num)⟩

/-- Claim C6: with weights fixed at 0.5 and 0.5, the final score is monotone
non-decreasing in the hard score and in the soft score. -/
theorem C6_final_score_monotone (h1 h2 s1 s2 : ℚ) (hh : h1 ≤ h2) (hs : s1 ≤ s2) :
    (calculate_final_score h1 s1 (1/2) (1/2)).final_score ≤
      (calculate_final_score h2 s2 (1/2) (1/2)).final_score := by
  have hp : (0:ℚ) < 1/2 + 1/2 := by norm_num
  simp only [calculate_final_score, if_pos hp]
  apply round2_mono
  have he : ((1:ℚ)/2) / (1/2 + 1/2) = 1/2 := by norm_num
  rw [he]
  linarith

/-- Witness for C6 at hard scores 0 and 50 and fixed soft score 10. -/
theorem C6_final_score_monotone_witness :
    ((0:ℚ) ≤ 50 ∧ (10:ℚ) ≤ 10) ∧
    (calculate_final_score 0 10 (1/2) (1/2)).final_score ≤
      (calculate_final_score 50 10 (1/2) (1/2)).final_score :=
  ⟨⟨by norm_num, le_refl 10⟩, C6_final_score_monotone 0 50 10 10 (by norm_num) (le_refl 10)⟩

/-- Claim C8: when the supplied weights sum to a value at most 0, no division
by the total is attempted: both weights are reset to 0.5 and the final score
is the rounded arithmetic mean of the two scores. -/
theorem C8_zero_weight_reset (h s hw sw : ℚ) (hle : hw + sw ≤ 0) :
    (calculate_final_score h s hw sw).final_score = round2 ((h + s) / 2) ∧
    (calculate_final_score h s hw sw).hard_weight = 1/2 ∧
    (calculate_final_score h s hw sw).soft_weight = 1/2 := by
  rw [calculate_final_score, if_neg (not_lt.mpr hle)]
  refine ⟨?_, rfl, rfl⟩
  have : h * (1/2) + s * (1/2) = (h + s) / 2 := by ring
  rw [this]

/-- Witness for C8 with both weights 0. -/
theorem C8_zero_weight_reset_witness :
    ((0:ℚ) + 0 ≤ 0) ∧
    (calculate_final_score 10 20 0 0).final_score = round2 ((10 + 20) / 2) :=
  ⟨by norm_num, (C8_zero_weight_reset 10 20 0 0 (by norm_num)).1⟩

/-- Python whitespace test on ASCII character codes: space, tab, newline,
carriage return, vertical tab, form feed. -/
def pyIsSpace (c : Char) : Bool :=
  decide (c.toNat = 32 ∨ c.toNat = 9 ∨ c.toNat = 10 ∨ c.toNat = 13 ∨
    c.toNat = 11 ∨ c.toNat = 12)

/-- Python str.lower restricted to ASCII case mapping. -/
def pyLower (s : String) : String := ⟨s.data.map Char.toLower⟩

/-- Character-list form of Python str.strip with no arguments: drop leading
and trailing whitespace. -/
def stripChars (l : List Char) : List Char :=
  ((l.dropWhile pyIsSpace).reverse.dropWhile pyIsSpace).reverse

/-- Python str.strip with no arguments. -/
def pyStrip (s : String) : String := ⟨stripChars s.data⟩

/-- Python skill.lower().strip(), the normalization ScoringEngine applies to
every skill string (scoring.py lines 95-97, 150-152, 185-186). -/
def normSkill (s : String) : String := pyStrip (pyLower s)

/-- Python substring containment on character lists: the first list occurs
contiguously inside the second. -/
def substr (needle : List Char) : List Char → Bool
  | [] => needle.isEmpty
  | c :: t => needle.isPrefixOf (c :: t) || substr needle t

/-- Python str.title on ASCII: an alphabetic character is uppercased when the
previous character is not alphabetic, and lowercased otherwise. -/
def pyTitleAux : Bool → List Char → List Char
  | _, [] => []
  | prevAlpha, c :: t =>
    (if c.isAlpha then (if prevAlpha then c.toLower else c.toUpper) else c) ::
      pyTitleAux c.isAlpha t

/-- Python str.title restricted to ASCII. -/
def pyTitle (s : String) : String := ⟨pyTitleAux false s.data⟩

/-- Synonym table of ScoringEngine._skill_match (scoring.py lines 196-211). -/
def variations : List (String × List String) :=
  [("javascript", ["js", "ecmascript"]),
   ("python", ["py"]),
   ("c++", ["cpp", "c plus plus"]),
   ("c#", ["csharp", "c sharp"]),
   ("html", ["html5"]),
   ("css", ["css3"]),
   ("react", ["reactjs", "react.js"]),
   ("node.js", ["nodejs", "node"]),
   ("machine learning", ["ml", "machinelearning"]),
   ("artificial intelligence", ["ai", "artificialintelligence"]),
   ("data science", ["datascience"]),
   ("web development", ["webdev", "web development"]),
   ("mobile development", ["mobiledev", "mobile development"])]

/-- Body of ScoringEngine._skill_match after both arguments have been
lowercased and stripped (scoring.py lines 188-217): exact equality, then
substring containment in either direction, then the synonym table. -/
def skillMatchAux (s1 s2 : String) : Bool :=
  if s1 == s2 then true
  else if substr s1.data s2.data || substr s2.data s1.data then true
  else variations.any fun kv =>
    (s1 == kv.1 && kv.2.contains s2) || (s2 == kv.1 && kv.2.contains s1)

/-- ScoringEngine._skill_match (scoring.py lines 183-217): both arguments are
lowercased and stripped, then compared by skillMatchAux. -/
def skill_match (skill1 skill2 : String) : Bool :=
  skillMatchAux (normSkill skill1) (normSkill skill2)

/-- Return value of ScoringEngine.get_matched_skills (scoring.py lines 129-181). -/
structure MatchedSkills where
  matched_required : List String
  matched_preferred : List String
  missing_required : List String
  missing_preferred : List String
  all_matched : List String
  all_missing : List String
deriving Repr, DecidableEq

/-- ScoringEngine.get_matched_skills (scoring.py lines 129-181).  A target
skill is matched when some candidate skill passes _skill_match, and matched
lists carry skill.title().  The missing lists keep those lowercased target
skills that do not occur verbatim in the title-cased matched list, exactly as
the source compares them (scoring.py lines 171-172). -/
def get_matched_skills (resume_skills jd_required_skills jd_preferred_skills : List String) :
    MatchedSkills :=
  let resume_skills_lower := resume_skills.map normSkill
  let jd_required_lower := jd_required_skills.map normSkill
  let jd_preferred_lower := jd_preferred_skills.map normSkill
  let matched_required :=
    (jd_required_lower.filter fun s => resume_skills_lower.any fun r => skill_match s r).map pyTitle
  let matched_preferred :=
    (jd_preferred_lower.filter fun s => resume_skills_lower.any fun r => skill_match s r).map pyTitle
  let missing_required :=
    (jd_required_lower.filter fun s => !(matched_required.contains s)).map pyTitle
  let missing_preferred :=
    (jd_preferred_lower.filter fun s => !(matched_preferred.contains s)).map pyTitle
  { matched_required := matched_required
    matched_preferred := matched_preferred
    missing_required := missing_required
    missing_preferred := missing_preferred
    all_matched := matched_required ++ matched_preferred
    all_missing := missing_required ++ missing_preferred }

/-- Claim C2 counterexample: the claimed conjunction is false on the code,
because _skill_match accepts java against javascript through the substring
containment rule.  Arguments are in the order the engine uses, target skill
first. -/
theorem C2_skill_equivalence_counterexample :
    ¬ (skill_match "js" "JavaScript" = true ∧ skill_match "javascript" "Java" = false) := by
  decide

/-- Claim C2 amended: JavaScript matches required skill js through the synonym
table, and Java also matches required skill javascript, through the substring
containment rule, so the no-false-positive half of the claim fails. -/
theorem C2_skill_equivalence_amended :
    skill_match "js" "JavaScript" = true ∧ skill_match "javascript" "Java" = true := by
  decide

/-- Boolean string equality is symmetric. -/
theorem string_beq_comm (a b : String) : (a == b) = (b == a) := by
  by_cases h : a = b
  · rw [h]
  · have h1 : (a == b) = false := beq_eq_false_iff_ne.mpr h
    have h2 : (b == a) = false := beq_eq_false_iff_ne.mpr (Ne.symm h)
    rw [h1, h2]

/-- The body of _skill_match is symmetric in its two arguments. -/
theorem skillMatchAux_comm (s1 s2 : String) : skillMatchAux s1 s2 = skillMatchAux s2 s1 := by
  by_cases h : s1 = s2
  · rw [h]
  · have h1 : (s1 == s2) = false := beq_eq_false_iff_ne.mpr h
    have h2 : (s2 == s1) = false := beq_eq_false_iff_ne.mpr (Ne.symm h)
    simp only [skillMatchAux, h1, h2, Bool.false_eq_true, if_false]
    rw [Bool.or_comm (substr s1.data s2.data) (substr s2.data s1.data)]
    have hB : (fun kv : String × List String =>
        (s1 == kv.1 && kv.2.contains s2) || (s2 == kv.1 && kv.2.contains s1)) =
        (fun kv : String × List String =>
        (s2 == kv.1 && kv.2.contains s1) || (s1 == kv.1 && kv.2.contains s2)) := by
      funext kv
      exact Bool.or_comm _ _
    rw [hB]

/-- Claim C9: _skill_match is symmetric, since exact equality, substring
containment and the synonym table are each checked in both directions. -/
theorem C9_skill_match_symm (a b : String) : skill_match a b = skill_match b a :=
  skillMatchAux_comm (normSkill a) (normSkill b)

/-- Claim C1 fails on the code: with candidate skill list python and required
skill list python, the matched list and the missing list returned by
get_matched_skills both contain Python, because the missing filter compares a
lowercased skill against the title-cased matched entries.  The two lists do
not partition the target skill set. -/
theorem C1_matched_missing_overlap :
    (get_matched_skills ["python"] ["python"] []).all_matched = ["Python"] ∧
    (get_matched_skills ["python"] ["python"] []).all_missing = ["Python"] := by
  decide

/-- Conversion of a valid code point back to its numeral. -/
theorem char_toNat_ofNat (n : ℕ) (h : n < 55296) : (Char.ofNat n).toNat = n := by
  simp [Char.ofNat, Char.toNat, Nat.isValidChar, UInt32.isValidChar, h, Char.ofNatAux,
    UInt32.toNat, UInt32.ofNatCore, BitVec.toNat_ofNatLt]

/-- ASCII lowercasing is idempotent. -/
theorem toLower_toLower (c : Char) : c.toLower.toLower = c.toLower := by
  simp only [Char.toLower]
  by_cases h : c.toNat ≥ 65 ∧ c.toNat ≤ 90
  · rw [if_pos h, if_neg]
    intro hcon
    rw [char_toNat_ofNat (c.toNat + 32) (by omega)] at hcon
    omega
  · rw [if_neg h, if_neg h]

/-- ASCII lowercasing neither creates nor destroys whitespace. -/
theorem pyIsSpace_toLower (c : Char) : pyIsSpace c.toLower = pyIsSpace c := by
  simp only [Char.toLower]
  by_cases h : c.toNat ≥ 65 ∧ c.toNat ≤ 90
  · rw [if_pos h]
    simp only [pyIsSpace, char_toNat_ofNat (c.toNat + 32) (by omega)]
    exact decide_eq_decide.mpr (by omega)
  · rw [if_neg h]

/-- Lowercasing a character list twice is the same as lowercasing it once. -/
theorem map_toLower_idem (l : List Char) :
    (l.map Char.toLower).map Char.toLower = l.map Char.toLower := by
  rw [List.map_map]
  exact List.map_congr_left fun c _ => toLower_toLower c

/-- Dropping a prefix of whitespace twice is the same as dropping it once. -/
theorem dropWhile_idem (p : Char → Bool) (l : List Char) :
    (l.dropWhile p).dropWhile p = l.dropWhile p := by
  induction l with
  | nil => rfl
  | cons c t ih =>
    by_cases h : p c = true
    · simp [List.dropWhile_cons, h, ih]
    · simp [List.dropWhile_cons, h]

/-- The head of a dropWhile result never satisfies the dropped predicate. -/
theorem head_dropWhile_false (p : Char → Bool) (l : List Char) (c : Char) (t : List Char)
    (h : l.dropWhile p = c :: t) : p c = false := by
  induction l with
  | nil => simp at h
  | cons a l ih =>
    rw [List.dropWhile_cons] at h
    by_cases ha : p a = true
    · rw [if_pos ha] at h
      exact ih h
    · rw [if_neg ha] at h
      injection h with h1 h2
      rw [← h1]
      exact Bool.not_eq_true _ ▸ ha

/-- Head test used by the strip lemmas: the first character, when present, is
not whitespace. -/
def headOk : List Char → Bool
  | [] => true
  | c :: _ => !(pyIsSpace c)

/-- A dropWhile by whitespace always leaves a headOk list. -/
theorem headOk_dropWhile (l : List Char) : headOk (l.dropWhile pyIsSpace) = true := by
  cases h : l.dropWhile pyIsSpace with
  | nil => rfl
  | cons c t =>
    simp [headOk, head_dropWhile_false pyIsSpace l c t h]

/-- Removing trailing whitespace keeps the first character intact. -/
theorem headOk_strip_back (x : List Char) (hx : headOk x = true) :
    headOk (x.reverse.dropWhile pyIsSpace).reverse = true := by
  have hsplit := List.takeWhile_append_dropWhile pyIsSpace x.reverse
  have hx2 : (x.reverse.dropWhile pyIsSpace).reverse ++
      (x.reverse.takeWhile pyIsSpace).reverse = x := by
    rw [← List.reverse_append, hsplit, List.reverse_reverse]
  cases hD : (x.reverse.dropWhile pyIsSpace).reverse with
  | nil => simp [headOk]
  | cons c t =>
    rw [hD, List.cons_append] at hx2
    rw [← hx2] at hx
    simpa [headOk] using hx

/-- A headOk list with a headOk reversal is unchanged by stripping. -/
theorem stripChars_of_headOk (l : List Char) (h1 : headOk l = true)
    (h2 : headOk l.reverse = true) : stripChars l = l := by
  have e1 : l.dropWhile pyIsSpace = l := by
    cases l with
    | nil => rfl
    | cons c t =>
      simp only [headOk, Bool.not_eq_eq_eq_not, Bool.not_true] at h1
      rw [List.dropWhile_cons, if_neg]
      simp [h1]
  rw [stripChars, e1]
  have e2 : l.reverse.dropWhile pyIsSpace = l.reverse := by
    cases hr : l.reverse with
    | nil => rfl
    | cons c t =>
      rw [hr] at h2
      simp only [headOk, Bool.not_eq_eq_eq_not, Bool.not_true] at h2
      rw [List.dropWhile_cons, if_neg]
      simp [h2]
  rw [e2, List.reverse_reverse]

/-- Stripping is idempotent. -/
theorem stripChars_idem (l : List Char) : stripChars (stripChars l) = stripChars l := by
  apply stripChars_of_headOk
  · exact headOk_strip_back (l.dropWhile pyIsSpace) (headOk_dropWhile l)
  · rw [stripChars, List.reverse_reverse]
    exact headOk_dropWhile _

/-- Lowercasing commutes with stripping. -/
theorem map_toLower_stripChars (l : List Char) :
    (stripChars l).map Char.toLower = stripChars (l.map Char.toLower) := by
  have hp : (pyIsSpace ∘ Char.toLower) = pyIsSpace := funext fun c => pyIsSpace_toLower c
  have hdw : ∀ x : List Char, (x.map Char.toLower).dropWhile pyIsSpace =
      (x.dropWhile pyIsSpace).map Char.toLower := by
    intro x
    rw [List.dropWhile_map, hp]
  have hrv : ∀ x : List Char, (x.map Char.toLower).reverse = x.reverse.map Char.toLower := by
    intro x
    rw [List.map_reverse]
  simp only [stripChars]
  rw [hdw, hrv, hdw, hrv]

/-- Skill normalization is idempotent. -/
theorem normSkill_idem (s : String) : normSkill (normSkill s) = normSkill s := by
  show pyStrip (pyLower (pyStrip (pyLower s))) = pyStrip (pyLower s)
  simp only [pyStrip, pyLower]
  congr 1
  show stripChars ((stripChars (s.data.map Char.toLower)).map Char.toLower) =
    stripChars (s.data.map Char.toLower)
  rw [map_toLower_stripChars, map_toLower_idem, stripChars_idem]

/-- Pre-normalizing the first argument of _skill_match is redundant. -/
theorem skill_match_normSkill_left (a b : String) :
    skill_match (normSkill a) b = skill_match a b := by
  unfold skill_match
  rw [normSkill_idem]

/-- Pre-normalizing the second argument of _skill_match is redundant. -/
theorem skill_match_normSkill_right (a b : String) :
    skill_match a (normSkill b) = skill_match a b := by
  unfold skill_match
  rw [normSkill_idem]

/-- Return value of ScoringEngine.calculate_skill_coverage
(scoring.py lines 74-127). -/
structure SkillCoverage where
  required_coverage : ℚ
  preferred_coverage : ℚ
  overall_coverage : ℚ
  required_matches : ℕ
  preferred_matches : ℕ
  total_matches : ℕ
deriving Repr, DecidableEq

/-- ScoringEngine.calculate_skill_coverage (scoring.py lines 74-127): count
matched skills per category, divide by the category size when it is nonzero,
scale to percent and round to two decimals; the overall coverage divides the
total match count by the total skill count when that is nonzero. -/
def calculate_skill_coverage (resume_skills jd_required_skills jd_preferred_skills :
    List String) : SkillCoverage :=
  let resume_skills_lower := resume_skills.map normSkill
  let jd_required_lower := jd_required_skills.map normSkill
  let jd_preferred_lower := jd_preferred_skills.map normSkill
  let required_matches :=
    jd_required_lower.countP fun s => resume_skills_lower.any fun r => skill_match s r
  let preferred_matches :=
    jd_preferred_lower.countP fun s => resume_skills_lower.any fun r => skill_match s r
  let total_jd_skills := jd_required_lower.length + jd_preferred_lower.length
  { required_coverage := if jd_required_lower.isEmpty then 0 else
      round2 ((required_matches : ℚ) / (jd_required_lower.length : ℚ) * 100)
    preferred_coverage := if jd_preferred_lower.isEmpty then 0 else
      round2 ((preferred_matches : ℚ) / (jd_preferred_lower.length : ℚ) * 100)
    overall_coverage := if 0 < total_jd_skills then
      round2 (((required_matches + preferred_matches : ℕ) : ℚ) / (total_jd_skills : ℚ) * 100)
      else 0
    required_matches := required_matches
    preferred_matches := preferred_matches
    total_matches := required_matches + preferred_matches }

/-- Specification-side count for claim C7: the number of target skills of one
category that have at least one matching candidate skill, computed directly
on the raw input lists. -/
def matchedCount (resume_skills jd_skills : List String) : ℕ :=
  (jd_skills.filter fun s => resume_skills.any fun r => skill_match s r).length

/-- The count computed by the engine on pre-normalized lists agrees with the
specification-side count on the raw lists. -/
theorem countP_map_normSkill (rs l : List String) :
    (l.map normSkill).countP (fun s => (rs.map normSkill).any fun r => skill_match s r) =
    matchedCount rs l := by
  have hfun : ((fun s => (rs.map normSkill).any fun r => skill_match s r) ∘ normSkill) =
      fun s => rs.any fun r => skill_match s r := by
    funext s
    show ((rs.map normSkill).any fun r => skill_match (normSkill s) r) =
      rs.any fun r => skill_match s r
    rw [List.any_map]
    have he : ((fun r => skill_match (normSkill s) r) ∘ normSkill) =
        fun r => skill_match s r := by
      funext r
      show skill_match (normSkill s) (normSkill r) = skill_match s r
      rw [skill_match_normSkill_left, skill_match_normSkill_right]
    rw [he]
  rw [List.countP_map, hfun, matchedCount, ← List.countP_eq_length_filter]

/-- Claim C7: skill coverage is the matched fraction of each category scaled
to percent, a category with no target skills gets coverage 0 with no division
attempted, and the overall coverage is total matches over total skills, 0
when both categories are empty. -/
theorem C7_skill_coverage (rs req pref : List String) :
    (calculate_skill_coverage rs req pref).required_matches = matchedCount rs req ∧
    (calculate_skill_coverage rs req pref).preferred_matches = matchedCount rs pref ∧
    (calculate_skill_coverage rs req pref).total_matches =
      matchedCount rs req + matchedCount rs pref ∧
    (calculate_skill_coverage rs req pref).required_coverage =
      (if req.length = 0 then 0 else
        round2 ((matchedCount rs req : ℚ) / (req.length : ℚ) * 100)) ∧
    (calculate_skill_coverage rs req pref).preferred_coverage =
      (if pref.length = 0 then 0 else
        round2 ((matchedCount rs pref : ℚ) / (pref.length : ℚ) * 100)) ∧
    (calculate_skill_coverage rs req pref).overall_coverage =
      (if req.length + pref.length = 0 then 0 else
        round2 (((matchedCount rs req + matchedCount rs pref : ℕ) : ℚ) /
          ((req.length + pref.length : ℕ) : ℚ) * 100)) := by
  have hr := countP_map_normSkill rs req
  have hp := countP_map_normSkill rs pref
  refine ⟨hr, hp, ?_, ?_, ?_, ?_⟩
  · rw [← hr, ← hp]
    rfl
  · simp only [calculate_skill_coverage]
    cases req with
    | nil => rfl
    | cons a t =>
      rw [if_neg (by simp), if_neg (by simp)]
      rw [countP_map_normSkill rs (a :: t), List.length_map]
  · simp only [calculate_skill_coverage]
    cases pref with
    | nil => rfl
    | cons b u =>
      rw [if_neg (by simp), if_neg (by simp)]
      rw [countP_map_normSkill rs (b :: u), List.length_map]
  · simp only [calculate_skill_coverage]
    rcases req with _ | ⟨a, t⟩
    · rcases pref with _ | ⟨b, u⟩
      · rw [if_neg (by simp), if_pos (by simp)]
      · rw [if_pos (by simp), if_neg (by simp)]
        rw [countP_map_normSkill rs [], countP_map_normSkill rs (b :: u),
          List.length_map, List.length_map]
    · rw [if_pos (by simp), if_neg (by simp)]
      rw [countP_map_normSkill rs (a :: t), countP_map_normSkill rs pref,
        List.length_map, List.length_map]

/-- Python regex word-character test restricted to ASCII: digits, letters and
underscore. -/
def pyIsWordChar (c : Char) : Bool :=
  decide ((48 ≤ c.toNat ∧ c.toNat ≤ 57) ∨ (65 ≤ c.toNat ∧ c.toNat ≤ 90) ∨
    (97 ≤ c.toNat ∧ c.toNat ≤ 122) ∨ c.toNat = 95)

/-- One character of the substitution replacing every character that is
neither a word character nor whitespace by a space
(hard_matcher.py line 226). -/
def replaceNonWord (c : Char) : Char :=
  if pyIsWordChar c || pyIsSpace c then c else ' '

/-- Substitution collapsing every maximal whitespace run to one single space
(hard_matcher.py line 229).  The Boolean argument records whether the
previous character was whitespace. -/
def collapseWS : Bool → List Char → List Char
  | _, [] => []
  | prevWS, c :: t =>
    if pyIsSpace c then
      if prevWS then collapseWS true t else ' ' :: collapseWS true t
    else c :: collapseWS false t

/-- HardMatcher._preprocess_text (hard_matcher.py lines 217-231): empty text
gives the empty string, otherwise lowercase, replace punctuation by spaces,
collapse whitespace runs to single spaces, and strip. -/
def preprocess_text (text : String) : String :=
  if text.data.isEmpty then ""
  else ⟨stripChars (collapseWS false ((text.data.map Char.toLower).map replaceNonWord))⟩

/-- No two adjacent characters are both whitespace. -/
def NoAdjSpace (l : List Char) : Prop :=
  List.Chain' (fun a b => ¬(pyIsSpace a = true ∧ pyIsSpace b = true)) l

/-- Characters that survive a full preprocessing pass: lowercase-stable word
characters, or the single space. -/
def cleanChar (c : Char) : Bool :=
  (pyIsWordChar c && (c.toLower == c)) || c == ' '

/-- Word characters are not whitespace. -/
theorem word_not_space {c : Char} (h : pyIsWordChar c = true) : pyIsSpace c = false := by
  rw [pyIsWordChar, decide_eq_true_iff] at h
  rw [pyIsSpace, decide_eq_false_iff_not]
  omega

/-- Case split on a true Boolean disjunction. -/
theorem bool_or_split {a b : Bool} (h : (a || b) = true) : a = true ∨ b = true := by
  cases a
  · right
    simpa using h
  · left
    rfl

/-- Left introduction for a Boolean disjunction. -/
theorem bool_or_left {a b : Bool} (h : a = true) : (a || b) = true := by
  rw [h]
  rfl

/-- Right introduction for a Boolean disjunction. -/
theorem bool_or_right {a b : Bool} (h : b = true) : (a || b) = true := by
  rw [h]
  simp

/-- Split a true Boolean conjunction. -/
theorem bool_and_split {a b : Bool} (h : (a && b) = true) : a = true ∧ b = true := by
  cases a
  · simp at h
  · exact ⟨rfl, by simpa using h⟩

/-- Every character produced by the collapsing pass is a space or a non-space
input character. -/
theorem collapseWS_mem (prev : Bool) (l : List Char) (c : Char)
    (h : c ∈ collapseWS prev l) : c = ' ' ∨ (c ∈ l ∧ pyIsSpace c = false) := by
  induction l generalizing prev with
  | nil => simp [collapseWS] at h
  | cons a t ih =>
    simp only [collapseWS] at h
    by_cases ha : pyIsSpace a = true
    · rw [if_pos ha] at h
      cases prev with
      | true =>
        rcases ih true h with h1 | h2
        · exact Or.inl h1
        · exact Or.inr ⟨List.mem_cons_of_mem a h2.1, h2.2⟩
      | false =>
        rcases List.mem_cons.mp h with h1 | h2
        · exact Or.inl h1
        · rcases ih true h2 with h3 | h4
          · exact Or.inl h3
          · exact Or.inr ⟨List.mem_cons_of_mem a h4.1, h4.2⟩
    · rw [if_neg ha] at h
      rcases List.mem_cons.mp h with h1 | h2
      · subst h1
        exact Or.inr ⟨List.mem_cons_self c t, Bool.not_eq_true _ ▸ ha⟩
      · rcases ih false h2 with h3 | h4
        · exact Or.inl h3
        · exact Or.inr ⟨List.mem_cons_of_mem a h4.1, h4.2⟩

/-- When the previous character was whitespace, the collapsing pass never
emits a leading space. -/
theorem headOk_collapseWS_true (l : List Char) : headOk (collapseWS true l) = true := by
  induction l with
  | nil => rfl
  | cons a t ih =>
    simp only [collapseWS]
    by_cases ha : pyIsSpace a = true
    · rw [if_pos ha]
      exact ih
    · rw [if_neg ha]
      simp [headOk, ha]

/-- The collapsing pass never produces two adjacent whitespace characters. -/
theorem noAdjSpace_collapseWS (prev : Bool) (l : List Char) :
    NoAdjSpace (collapseWS prev l) := by
  induction l generalizing prev with
  | nil => exact List.chain'_nil
  | cons a t ih =>
    simp only [collapseWS]
    by_cases ha : pyIsSpace a = true
    · rw [if_pos ha]
      cases prev with
      | true => exact ih true
      | false =>
        rw [if_neg (by simp)]
        rw [NoAdjSpace, List.chain'_cons']
        refine ⟨?_, ih true⟩
        intro b hb
        have hhd := headOk_collapseWS_true t
        cases hcb : collapseWS true t with
        | nil =>
          rw [hcb] at hb
          simp at hb
        | cons e u =>
          rw [hcb] at hb hhd
          simp only [List.head?_cons, Option.mem_some_iff] at hb
          subst hb
          simp only [headOk, Bool.not_eq_eq_eq_not, Bool.not_true] at hhd
          intro hcon
          rw [hhd] at hcon
          exact Bool.false_ne_true hcon.2
    · rw [if_neg ha]
      rw [NoAdjSpace, List.chain'_cons']
      refine ⟨?_, ih false⟩
      intro b _
      intro hcon
      exact ha hcon.1

/-- On a list whose spaces are single plain spaces, the collapsing pass is the
identity. -/
theorem collapseWS_id (l : List Char) : ∀ prev : Bool,
    NoAdjSpace l → (∀ c ∈ l, pyIsSpace c = true → c = ' ') →
    (prev = true → headOk l = true) → collapseWS prev l = l := by
  induction l with
  | nil =>
    intro prev _ _ _
    rfl
  | cons a t ih =>
    intro prev hchain hsp hhd
    simp only [collapseWS]
    by_cases ha : pyIsSpace a = true
    · rw [if_pos ha]
      have hprev : prev = false := by
        cases prev
        · rfl
        · have hcon := hhd rfl
          simp [headOk, ha] at hcon
      subst hprev
      have haeq : a = ' ' := hsp a (List.mem_cons_self a t) ha
      have htail : collapseWS true t = t := by
        apply ih true
        · exact hchain.tail
        · intro c hcm hcs
          exact hsp c (List.mem_cons_of_mem a hcm) hcs
        · intro _
          cases t with
          | nil => rfl
          | cons b u =>
            have hrel := (List.chain'_cons'.mp hchain).1 b rfl
            simp only [headOk, Bool.not_eq_eq_eq_not, Bool.not_true]
            by_contra hcon
            simp only [Bool.not_eq_false] at hcon
            exact hrel ⟨ha, hcon⟩
      show ' ' :: collapseWS true t = a :: t
      rw [htail, haeq]
    · rw [if_neg ha]
      congr 1
      apply ih false
      · exact hchain.tail
      · intro c hcm hcs
        exact hsp c (List.mem_cons_of_mem a hcm) hcs
      · intro hcon
        exact absurd hcon (by simp)

/-- Every character of the collapsed replaced lowered text is clean. -/
theorem cleanChar_of_mem_collapse (X : List Char) (c : Char)
    (h : c ∈ collapseWS false ((X.map Char.toLower).map replaceNonWord)) :
    cleanChar c = true := by
  rcases collapseWS_mem false _ c h with h1 | ⟨h2, h3⟩
  · subst h1
    simp [cleanChar]
  · rcases List.mem_map.mp h2 with ⟨e, he, heq⟩
    rcases List.mem_map.mp he with ⟨d, _, hde⟩
    subst hde
    by_cases hw : (pyIsWordChar d.toLower || pyIsSpace d.toLower) = true
    · have hce : c = d.toLower := by
        rw [← heq, replaceNonWord, if_pos hw]
      rcases bool_or_split hw with hword | hspace
      · rw [cleanChar]
        apply bool_or_left
        rw [hce, hword, Bool.true_and]
        exact beq_iff_eq.mpr (toLower_toLower d)
      · rw [hce] at h3
        rw [hspace] at h3
        exact absurd h3 (by simp)
    · have hce : c = ' ' := by
        rw [← heq, replaceNonWord, if_neg hw]
      subst hce
      simp [cleanChar]

/-- Stripping only removes characters. -/
theorem mem_stripChars (l : List Char) (c : Char) (h : c ∈ stripChars l) : c ∈ l := by
  rw [stripChars, List.mem_reverse] at h
  have h2 := (List.dropWhile_suffix pyIsSpace).sublist.subset h
  rw [List.mem_reverse] at h2
  exact (List.dropWhile_suffix pyIsSpace).sublist.subset h2

/-- Stripping preserves the absence of adjacent whitespace. -/
theorem noAdjSpace_stripChars (l : List Char) (h : NoAdjSpace l) :
    NoAdjSpace (stripChars l) := by
  have hR : ∀ m : List Char, NoAdjSpace m → NoAdjSpace m.reverse := by
    intro m hm
    rw [NoAdjSpace, List.chain'_reverse]
    have hflip : (flip fun a b : Char => ¬(pyIsSpace a = true ∧ pyIsSpace b = true)) =
        fun a b : Char => ¬(pyIsSpace a = true ∧ pyIsSpace b = true) := by
      funext a b
      simp [flip, and_comm]
    rw [hflip]
    exact hm
  have hD : ∀ m : List Char, NoAdjSpace m → NoAdjSpace (m.dropWhile pyIsSpace) := by
    intro m hm
    exact hm.infix (List.dropWhile_suffix pyIsSpace).isInfix
  exact hR _ (hD _ (hR _ (hD _ h)))

/-- A strip result starts with a non-whitespace character. -/
theorem headOk_stripChars (l : List Char) : headOk (stripChars l) = true :=
  headOk_strip_back (l.dropWhile pyIsSpace) (headOk_dropWhile l)

/-- A strip result ends with a non-whitespace character. -/
theorem lastOk_stripChars (l : List Char) : headOk (stripChars l).reverse = true := by
  rw [stripChars, List.reverse_reverse]
  exact headOk_dropWhile _

/-- Preprocessing is the identity on a clean, space-isolated, stripped
character list. -/
theorem preprocess_of_clean (l : List Char)
    (hc : ∀ c ∈ l, cleanChar c = true)
    (hchain : NoAdjSpace l)
    (h1 : headOk l = true) (h2 : headOk l.reverse = true) :
    preprocess_text ⟨l⟩ = ⟨l⟩ := by
  cases l with
  | nil => rfl
  | cons a x =>
    show (if (a :: x).isEmpty = true then "" else
      ⟨stripChars (collapseWS false (((a :: x).map Char.toLower).map replaceNonWord))⟩) =
      ⟨a :: x⟩
    rw [if_neg (by simp)]
    have hfix : ∀ c ∈ a :: x, c.toLower = c := by
      intro c hcm
      rcases bool_or_split (hc c hcm) with hword | hsp
      · exact beq_iff_eq.mp (bool_and_split hword).2
      · rw [beq_iff_eq.mp hsp]
        decide
    have hmap1 : (a :: x).map Char.toLower = a :: x := by
      rw [List.map_congr_left hfix]
      exact List.map_id' (a :: x)
    have hkept : ∀ c ∈ a :: x, replaceNonWord c = c := by
      intro c hcm
      rcases bool_or_split (hc c hcm) with hword | hsp
      · rw [replaceNonWord, if_pos (bool_or_left (bool_and_split hword).1)]
      · rw [replaceNonWord, if_pos (bool_or_right (by rw [beq_iff_eq.mp hsp]; decide))]
    have hmap2 : (a :: x).map replaceNonWord = a :: x := by
      rw [List.map_congr_left hkept]
      exact List.map_id' (a :: x)
    rw [hmap1, hmap2]
    have hsp1 : ∀ c ∈ a :: x, pyIsSpace c = true → c = ' ' := by
      intro c hcm hcs
      rcases bool_or_split (hc c hcm) with hword | hsp
      · have hns := word_not_space (bool_and_split hword).1
        rw [hns] at hcs
        exact absurd hcs (by simp)
      · exact beq_iff_eq.mp hsp
    rw [collapseWS_id (a :: x) false hchain hsp1 (by intro hcon; exact absurd hcon (by simp))]
    rw [stripChars_of_headOk (a :: x) h1 h2]

/-- Claim C10: the text normalizer of the hard matcher is idempotent. -/
theorem C10_preprocess_idempotent (t : String) :
    preprocess_text (preprocess_text t) = preprocess_text t := by
  rcases hd : t.data with _ | ⟨a, x⟩
  · have h1 : preprocess_text t = "" := by
      rw [preprocess_text, hd, if_pos (by simp)]
    rw [h1]
    rfl
  · have h1 : preprocess_text t =
        ⟨stripChars (collapseWS false (((a :: x).map Char.toLower).map replaceNonWord))⟩ := by
      rw [preprocess_text, hd, if_neg (by simp)]
    rw [h1]
    apply preprocess_of_clean
    · intro c hcm
      exact cleanChar_of_mem_collapse (a :: x) c (mem_stripChars _ c hcm)
    · exact noAdjSpace_stripChars _ (noAdjSpace_collapseWS false _)
    · exact headOk_stripChars _
    · exact lastOk_stripChars _

/-- Dot product of two equal-length vectors, np.dot on the embeddings. -/
def dotp : List ℚ → List ℚ → ℚ
  | a :: as, b :: bs => a * b + dotp as bs
  | _, _ => 0

/-- The number n is the Euclidean norm of v: nonnegative, and its square is
the dot product of v with itself.  This is how np.linalg.norm enters the
rational model: each norm is passed alongside its vector, constrained by this
predicate. -/
def IsNorm (v : List ℚ) (n : ℚ) : Prop := 0 ≤ n ∧ n ^ 2 = dotp v v

/-- Cosine helper shared by both matchers (hard_matcher.py lines 268-280,
soft_matcher.py lines 235-247): zero when either norm is zero, otherwise the
dot product over the product of norms. -/
def cosine_similarity (v1 v2 : List ℚ) (n1 n2 : ℚ) : ℚ :=
  if n1 = 0 ∨ n2 = 0 then 0 else dotp v1 v2 / (n1 * n2)

/-- SoftMatcher._calculate_text_similarity (soft_matcher.py lines 109-129):
zero for empty text, otherwise the cosine similarity of the two embedding
vectors scaled by 100, with no clamping. -/
def calculate_text_similarity (resume_text jd_text : String)
    (e1 e2 : List ℚ) (n1 n2 : ℚ) : ℚ :=
  if resume_text.data.isEmpty || jd_text.data.isEmpty then 0
  else cosine_similarity e1 e2 n1 n2 * 100

/-- Normalization step of HardMatcher._calculate_bm25_score
(hard_matcher.py lines 116-128), applied to the two relevance scores the BM25
library returns on the two-document corpus: divide the score against the job
description by the maximum score when that is positive, then clamp to 100. -/
def bm25_normalize (resume_score jd_score : ℚ) : ℚ :=
  min (if 0 < max resume_score jd_score then
    jd_score / max resume_score jd_score * 100 else 0) 100

/-- A dot product of a vector with itself is nonnegative. -/
theorem dotp_self_nonneg : ∀ v : List ℚ, 0 ≤ dotp v v := by
  intro v
  induction v with
  | nil => norm_num [dotp]
  | cons a as ih =>
    show 0 ≤ a * a + dotp as as
    nlinarith [mul_self_nonneg a]

/-- Cauchy-Schwarz inequality for the list dot product. -/
theorem dotp_sq_le : ∀ v w : List ℚ, (dotp v w) ^ 2 ≤ dotp v v * dotp w w := by
  intro v
  induction v with
  | nil =>
    intro w
    norm_num [dotp]
  | cons a as ih =>
    intro w
    cases w with
    | nil =>
      show (dotp (a :: as) [] : ℚ) ^ 2 ≤ dotp (a :: as) (a :: as) * dotp [] []
      norm_num [dotp]
    | cons b bs =>
      have h1 := ih bs
      have h2 := dotp_self_nonneg as
      have h3 := dotp_self_nonneg bs
      show (a * b + dotp as bs) ^ 2 ≤ (a * a + dotp as as) * (b * b + dotp bs bs)
      rcases eq_or_lt_of_le h2 with hp0 | hpp
      · have hd2 : dotp as bs ^ 2 = 0 := by
          refine le_antisymm ?_ (sq_nonneg _)
          rw [← hp0] at h1
          nlinarith [h1]
        have hd0 : dotp as bs = 0 := by
          exact (pow_eq_zero_iff (by norm_num : (2:ℕ) ≠ 0)).mp hd2
        rw [hd0, ← hp0]
        nlinarith [mul_nonneg (mul_self_nonneg a) h3]
      · have haux : 0 ≤ dotp as as * dotp bs bs - dotp as bs ^ 2 := by linarith
        have hsum : (0:ℚ) ≤ a ^ 2 + dotp as as := by positivity
        nlinarith [sq_nonneg (a * dotp as bs - b * dotp as as),
          mul_nonneg hsum haux, hpp]

/-- With true norms, the cosine similarity lies in [-1, 1]. -/
theorem cosine_similarity_bounds (v1 v2 : List ℚ) (n1 n2 : ℚ)
    (h1 : IsNorm v1 n1) (h2 : IsNorm v2 n2) :
    -1 ≤ cosine_similarity v1 v2 n1 n2 ∧ cosine_similarity v1 v2 n1 n2 ≤ 1 := by
  rw [cosine_similarity]
  by_cases hz : n1 = 0 ∨ n2 = 0
  · rw [if_pos hz]
    norm_num
  · rw [if_neg hz]
    push_neg at hz
    have hp1 : 0 < n1 := lt_of_le_of_ne h1.1 (Ne.symm hz.1)
    have hp2 : 0 < n2 := lt_of_le_of_ne h2.1 (Ne.symm hz.2)
    have hcs := dotp_sq_le v1 v2
    rw [← h1.2, ← h2.2] at hcs
    have hc2 : (dotp v1 v2 / (n1 * n2)) ^ 2 ≤ 1 := by
      rw [div_pow, div_le_one (by positivity)]
      calc (dotp v1 v2) ^ 2 ≤ n1 ^ 2 * n2 ^ 2 := hcs
        _ = (n1 * n2) ^ 2 := by ring
    constructor
    · nlinarith [sq_nonneg (dotp v1 v2 / (n1 * n2) + 1)]
    · nlinarith [sq_nonneg (dotp v1 v2 / (n1 * n2) - 1)]

/-- Rounding to two decimals fixes zero. -/
theorem round2_zero : round2 0 = 0 := by
  rw [round2, roundHalfEven]
  norm_num

/-- Rounding to two decimals fixes one hundred. -/
theorem round2_hundred : round2 100 = 100 := by
  rw [round2, roundHalfEven]
  norm_num

/-- Claim C3 amended: the BM25 normalization stays in [0, 100] on the
nonnegative relevance scores the library produces, and the final-score
aggregation of in-range components stays in [0, 100]; the semantic text
similarity, however, is only bounded by [-100, 100] in general, and is
nonnegative precisely on embedding pairs with nonnegative dot product — an
embedding pair with negative cosine drives it below 0. -/
theorem C3_score_ranges :
    (∀ (rt jt : String) (e1 e2 : List ℚ) (n1 n2 : ℚ), IsNorm e1 n1 → IsNorm e2 n2 →
      -100 ≤ calculate_text_similarity rt jt e1 e2 n1 n2 ∧
      calculate_text_similarity rt jt e1 e2 n1 n2 ≤ 100 ∧
      (0 ≤ dotp e1 e2 → 0 ≤ calculate_text_similarity rt jt e1 e2 n1 n2)) ∧
    (∀ s0 s1 : ℚ, 0 ≤ s0 → 0 ≤ s1 →
      0 ≤ bm25_normalize s0 s1 ∧ bm25_normalize s0 s1 ≤ 100) ∧
    (∀ h s : ℚ, 0 ≤ h → h ≤ 100 → 0 ≤ s → s ≤ 100 →
      0 ≤ (calculate_final_score h s (1/2) (1/2)).final_score ∧
      (calculate_final_score h s (1/2) (1/2)).final_score ≤ 100) := by
  refine ⟨?_, ?_, ?_⟩
  · intro rt jt e1 e2 n1 n2 h1 h2
    rw [calculate_text_similarity]
    by_cases he : (rt.data.isEmpty || jt.data.isEmpty) = true
    · rw [if_pos he]
      norm_num
    · rw [if_neg he]
      have hb := cosine_similarity_bounds e1 e2 n1 n2 h1 h2
      refine ⟨by nlinarith [hb.1], by nlinarith [hb.2], ?_⟩
      intro hd
      have hge : 0 ≤ cosine_similarity e1 e2 n1 n2 := by
        rw [cosine_similarity]
        by_cases hz : n1 = 0 ∨ n2 = 0
        · rw [if_pos hz]
        · rw [if_neg hz]
          push_neg at hz
          have hp1 : 0 < n1 := lt_of_le_of_ne h1.1 (Ne.symm hz.1)
          have hp2 : 0 < n2 := lt_of_le_of_ne h2.1 (Ne.symm hz.2)
          exact div_nonneg hd (le_of_lt (mul_pos hp1 hp2))
      nlinarith [hge]
  · intro s0 s1 hs0 hs1
    rw [bm25_normalize]
    constructor
    · refine le_min ?_ (by norm_num)
      by_cases hm : 0 < max s0 s1
      · rw [if_pos hm]
        exact mul_nonneg (div_nonneg hs1 (le_of_lt hm)) (by norm_num)
      · rw [if_neg hm]
    · exact min_le_right _ _
  · intro h s h0 h100 s0 s100
    have hp : (0:ℚ) < 1/2 + 1/2 := by norm_num
    simp only [calculate_final_score, if_pos hp]
    have he : ((1:ℚ)/2) / (1/2 + 1/2) = 1/2 := by norm_num
    rw [he]
    have hlo : (0:ℚ) ≤ h * (1/2) + s * (1/2) := by linarith
    have hhi : h * (1/2) + s * (1/2) ≤ 100 := by linarith
    constructor
    · have hm := round2_mono hlo
      rw [round2_zero] at hm
      exact hm
    · have hm := round2_mono hhi
      rw [round2_hundred] at hm
      exact hm

/-- Witness for the amended C3 at concrete inputs: the embedding pair (3,4)
and (4,3) with norms 5, the BM25 score pair (1,1), and component scores 30
and 70. -/
theorem C3_score_ranges_witness :
    (0 ≤ calculate_text_similarity "r" "j" [3, 4] [4, 3] 5 5 ∧
      calculate_text_similarity "r" "j" [3, 4] [4, 3] 5 5 ≤ 100) ∧
    (0 ≤ bm25_normalize 1 1 ∧ bm25_normalize 1 1 ≤ 100) ∧
    (0 ≤ (calculate_final_score 30 70 (1/2) (1/2)).final_score ∧
      (calculate_final_score 30 70 (1/2) (1/2)).final_score ≤ 100) := by
  have h := C3_score_ranges
  have h1 := h.1 "r" "j" [3, 4] [4, 3] 5 5
    ⟨by norm_num, by norm_num [dotp]⟩ ⟨by norm_num, by norm_num [dotp]⟩
  have h2 := h.2.1 1 1 (by norm_num) (by norm_num)
  have h3 := h.2.2 30 70 (by norm_num) (by norm_num) (by norm_num) (by norm_num)
  exact ⟨⟨h1.2.2 (by norm_num [dotp]), h1.2.1⟩, h2, h3⟩

/-- Claim C3 counterexample: with candidate embedding (1) and target embedding
(-1), both of norm 1, the semantic text similarity returned by the engine is
-100, outside [0, 100], so the claim as stated is false. -/
theorem C3_score_range_counterexample :
    IsNorm [(1:ℚ)] 1 ∧ IsNorm [(-1:ℚ)] 1 ∧
    calculate_text_similarity "resume" "jd" [1] [-1] 1 1 = -100 ∧
    calculate_text_similarity "resume" "jd" [1] [-1] 1 1 < 0 := by
  refine ⟨⟨by norm_num, by norm_num [dotp]⟩, ⟨by norm_num, by norm_num [dotp]⟩, ?_, ?_⟩
  · norm_num [calculate_text_similarity, cosine_similarity, dotp]
  · norm_num [calculate_text_similarity, cosine_similarity, dotp]

/-- EvaluationResult of the evaluation pipeline (evaluation_pipeline.py
lines 24-33); the free-text feedback dictionary is not modelled. -/
structure EvaluationResult where
  final_score : ℚ
  verdict : String
  hard_match_score : ℚ
  soft_match_score : ℚ
  matched_skills : List String
  missing_skills : List String
  skill_coverage : ℚ
deriving Repr, DecidableEq

/-- Error record built in the exception branch of batch_evaluate_resumes
(evaluation_pipeline.py lines 221-237). -/
def error_result : EvaluationResult :=
  { final_score := 0
    verdict := "Error"
    hard_match_score := 0
    soft_match_score := 0
    matched_skills := []
    missing_skills := []
    skill_coverage := 0 }

/-- ResumeEvaluationPipeline.batch_evaluate_resumes (evaluation_pipeline.py
lines 192-240).  The per-resume evaluation is a fallible call modelled as an
Except value; the loop evaluates each resume in input order, catches a raised
exception and appends the error record in its place, and continues. -/
def batch_evaluate_resumes {α : Type} (evaluate_resume : α → Except String EvaluationResult)
    (resume_file_paths : List α) : List EvaluationResult :=
  resume_file_paths.map fun p =>
    match evaluate_resume p with
    | Except.ok r => r
    | Except.error _ => error_result

/-- Claim C4: batch evaluation returns exactly one result per input, in input
order; the result at position i depends only on the evaluation of input i, a
raising evaluation yields the Error record with zero scores and empty skill
lists, other positions are unaffected, and the batch operation is a total
function, so no exception escapes it. -/
theorem C4_batch_evaluation {α : Type} (ev : α → Except String EvaluationResult)
    (paths : List α) :
    (batch_evaluate_resumes ev paths).length = paths.length ∧
    (∀ i : ℕ, (batch_evaluate_resumes ev paths)[i]? =
      (paths[i]?).map fun p =>
        match ev p with
        | Except.ok r => r
        | Except.error _ => error_result) ∧
    error_result.verdict = "Error" ∧ error_result.final_score = 0 ∧
    error_result.hard_match_score = 0 ∧ error_result.soft_match_score = 0 ∧
    error_result.skill_coverage = 0 ∧ error_result.matched_skills = [] ∧
    error_result.missing_skills = [] := by
  refine ⟨List.length_map _ _, fun i => ?_, rfl, rfl, rfl, rfl, rfl, rfl, rfl⟩
  rw [batch_evaluate_resumes, List.getElem?_map]

end HireLens
